import Mathlib

/-!
Verification of `font-classification-tool.py` (davelab6/FontClassificationTool).

Shallow embedding conventions:
* Python floats are modelled as exact rationals `ℚ`; Python ints as `ℤ`.
* Python `int(x)` truncates a float toward zero; on a rational this is
  `Int.tdiv q.num q.den` (T-division of the reduced numerator by the
  denominator), see `pyInt`.
* Python strings (the tool runs on Python 2 byte strings) are modelled as
  `String` and manipulated through their `List Char` of code points; the
  ad-hoc helpers (`strContains`, `pyEndsWith`, ...) mirror the exact
  semantics of the Python operations (`in`, `str.endswith`, ...) used by
  the source.
* Code that can raise returns `PyResult`; an uncaught exception is
  `PyResult.error`.
-/

/-- Python exception kinds raised by the code under analysis. -/
inductive PyErr where
  | KeyError
  | ParseError
  | OSError
  | RuntimeError
  | NameError
  deriving DecidableEq, Repr

/-- Result of running a piece of Python code: a value, or an uncaught exception. -/
inductive PyResult (α : Type) where
  | ok : α → PyResult α
  | error : PyErr → PyResult α
  deriving DecidableEq, Repr

/-- Whether a `PyResult` is a normal (non-raising) return. -/
def PyResult.isOk {α : Type} : PyResult α → Bool
  | .ok _ => true
  | .error _ => false

/-- Python `int(x)` on a float: truncation toward zero. On a reduced rational
this is T-division of the numerator by the denominator. -/
def pyInt (q : ℚ) : ℤ :=
  Int.tdiv q.num (q.den : ℤ)

/-- `sorted(values)` from line 164 of the source: ascending merge sort. -/
def sortedValues (values : List ℚ) : List ℚ :=
  values.mergeSort (fun a b => decide (a ≤ b))

/-- `min_value = float(values_ordered[0])` (line 165): head of the sorted list. -/
def min_value (values : List ℚ) : ℚ :=
  (sortedValues values).headI

/-- `max_value = float(values_ordered[-1])` (line 166): last of the sorted list. -/
def max_value (values : List ℚ) : ℚ :=
  (sortedValues values).getLastI

/-- `map_to_int_range` (lines 159-180 of the source).
`none` models the `IndexError` Python raises on `values_ordered[0]` for an
empty input list. The degenerate branch (lines 168-173) clamps
`int(min_value)` between the targets; the general branch (lines 175-180)
is the linear rescale with `int` truncation. -/
def map_to_int_range (values : List ℚ) (target_min target_max : ℤ) : Option (List ℤ) :=
  match values with
  | [] => none
  | _ :: _ =>
    if min_value values = max_value values then
      some (values.map fun _ => min (max target_min (pyInt (min_value values))) target_max)
    else
      some (values.map fun v =>
        target_min + pyInt (((target_max - target_min : ℤ) : ℚ) *
          ((v - min_value values) / (max_value values - min_value values))))

-- Helper lemmas about `min_value` / `max_value`.

theorem headI_mem_of_ne_nil {l : List ℚ} (h : l ≠ []) : l.headI ∈ l := by
  cases l with
  | nil => exact absurd rfl h
  | cons a t => exact List.mem_cons_self a t

theorem getLastI_mem_of_ne_nil {l : List ℚ} (h : l ≠ []) : l.getLastI ∈ l := by
  rw [List.getLastI_eq_getLast?, List.getLast?_eq_getLast l h]
  exact List.getLast_mem h

theorem sorted_headI_le {l : List ℚ} (hs : l.Sorted (· ≤ ·)) {x : ℚ} (hx : x ∈ l) :
    l.headI ≤ x := by
  cases l with
  | nil => cases hx
  | cons a t =>
    rcases List.mem_cons.mp hx with rfl | h
    · exact le_rfl
    · exact (List.sorted_cons.mp hs).1 x h

theorem getLastI_cons_of_ne_nil {a : ℚ} {t : List ℚ} (h : t ≠ []) :
    (a :: t).getLastI = t.getLastI := by
  cases t with
  | nil => exact absurd rfl h
  | cons b t' =>
    rw [List.getLastI_eq_getLast?, List.getLastI_eq_getLast?, List.getLast?_cons_cons]

theorem sorted_le_getLastI {l : List ℚ} (hs : l.Sorted (· ≤ ·)) {x : ℚ} (hx : x ∈ l) :
    x ≤ l.getLastI := by
  induction l with
  | nil => cases hx
  | cons a t ih =>
    rcases List.mem_cons.mp hx with rfl | h
    · cases ht : t with
      | nil => simp [List.getLastI]
      | cons b t' =>
        subst ht
        rw [getLastI_cons_of_ne_nil (by simp)]
        have hmem : (b :: t').getLastI ∈ b :: t' := getLastI_mem_of_ne_nil (by simp)
        exact (List.sorted_cons.mp hs).1 _ hmem
    · rw [getLastI_cons_of_ne_nil (List.ne_nil_of_mem h)]
      exact ih (List.sorted_cons.mp hs).2 h

theorem sortedValues_perm (values : List ℚ) : (sortedValues values).Perm values :=
  List.mergeSort_perm values _

theorem sortedValues_sorted (values : List ℚ) : (sortedValues values).Sorted (· ≤ ·) :=
  List.sorted_mergeSort' values

theorem sortedValues_ne_nil {values : List ℚ} (h : values ≠ []) : sortedValues values ≠ [] := by
  intro hnil
  have := (sortedValues_perm values).length_eq
  rw [hnil] at this
  exact h (List.length_eq_zero.mp this.symm)

theorem min_value_le {values : List ℚ} {x : ℚ} (hx : x ∈ values) : min_value values ≤ x :=
  sorted_headI_le (sortedValues_sorted values)
    ((sortedValues_perm values).mem_iff.mpr hx)

theorem le_max_value {values : List ℚ} {x : ℚ} (hx : x ∈ values) : x ≤ max_value values :=
  sorted_le_getLastI (sortedValues_sorted values)
    ((sortedValues_perm values).mem_iff.mpr hx)

theorem min_value_mem {values : List ℚ} (h : values ≠ []) : min_value values ∈ values :=
  (sortedValues_perm values).mem_iff.mp (headI_mem_of_ne_nil (sortedValues_ne_nil h))

theorem max_value_mem {values : List ℚ} (h : values ≠ []) : max_value values ∈ values :=
  (sortedValues_perm values).mem_iff.mp (getLastI_mem_of_ne_nil (sortedValues_ne_nil h))

-- Helper lemmas about `pyInt`.

theorem pyInt_eq_floor {q : ℚ} (h : 0 ≤ q) : pyInt q = ⌊q⌋ := by
  rw [Rat.floor_def]
  exact Int.tdiv_eq_ediv (Rat.num_nonneg.mpr h) (Int.ofNat_nonneg q.den)

theorem pyInt_intCast (n : ℤ) : pyInt ((n : ℚ)) = n := by
  unfold pyInt
  rw [Rat.num_intCast, Rat.den_intCast]
  exact Int.tdiv_one n

-- Branch characterizations of `map_to_int_range`.

theorem map_to_int_range_degenerate {values : List ℚ} (hne : values ≠ [])
    (heq : min_value values = max_value values) (target_min target_max : ℤ) :
    map_to_int_range values target_min target_max =
      some (values.map fun _ => min (max target_min (pyInt (min_value values))) target_max) := by
  cases values with
  | nil => exact absurd rfl hne
  | cons a t => simp [map_to_int_range, heq]

theorem map_to_int_range_general {values : List ℚ} (hne : values ≠ [])
    (hneq : min_value values ≠ max_value values) (target_min target_max : ℤ) :
    map_to_int_range values target_min target_max =
      some (values.map fun v =>
        target_min + pyInt (((target_max - target_min : ℤ) : ℚ) *
          ((v - min_value values) / (max_value values - min_value values)))) := by
  cases values with
  | nil => exact absurd rfl hne
  | cons a t => simp [map_to_int_range, hneq]

theorem min_value_lt_max_value {values : List ℚ} (hne : values ≠ [])
    (hneq : min_value values ≠ max_value values) : min_value values < max_value values :=
  lt_of_le_of_ne (le_trans (min_value_le (max_value_mem hne)) le_rfl) hneq

/-- Bound for one element of the general branch. -/
theorem general_elem_bounds {values : List ℚ} {v : ℚ} (hne : values ≠ [])
    (hneq : min_value values ≠ max_value values) (hv : v ∈ values)
    {target_min target_max : ℤ} (hle : target_min ≤ target_max) :
    target_min ≤ target_min + pyInt (((target_max - target_min : ℤ) : ℚ) *
        ((v - min_value values) / (max_value values - min_value values))) ∧
      target_min + pyInt (((target_max - target_min : ℤ) : ℚ) *
        ((v - min_value values) / (max_value values - min_value values))) ≤ target_max := by
  have hlt : min_value values < max_value values := min_value_lt_max_value hne hneq
  have hfr : (0 : ℚ) < max_value values - min_value values := sub_pos.mpr hlt
  have ht0 : (0 : ℚ) ≤ (v - min_value values) / (max_value values - min_value values) :=
    div_nonneg (sub_nonneg.mpr (min_value_le hv)) (le_of_lt hfr)
  have ht1 : (v - min_value values) / (max_value values - min_value values) ≤ 1 :=
    (div_le_one hfr).mpr (sub_le_sub_right (le_max_value hv) _)
  have hr0 : (0 : ℚ) ≤ ((target_max - target_min : ℤ) : ℚ) := by
    exact_mod_cast sub_nonneg.mpr hle
  have harg0 : (0 : ℚ) ≤ ((target_max - target_min : ℤ) : ℚ) *
      ((v - min_value values) / (max_value values - min_value values)) :=
    mul_nonneg hr0 ht0
  have hargr : ((target_max - target_min : ℤ) : ℚ) *
      ((v - min_value values) / (max_value values - min_value values)) ≤
      ((target_max - target_min : ℤ) : ℚ) :=
    mul_le_of_le_one_right hr0 ht1
  rw [pyInt_eq_floor harg0]
  constructor
  · have : (0 : ℤ) ≤ ⌊((target_max - target_min : ℤ) : ℚ) *
        ((v - min_value values) / (max_value values - min_value values))⌋ :=
      Int.floor_nonneg.mpr harg0
    omega
  · have hfl : ⌊((target_max - target_min : ℤ) : ℚ) *
        ((v - min_value values) / (max_value values - min_value values))⌋ ≤
        target_max - target_min := by
      have := Int.floor_le_floor hargr
      rwa [Int.floor_intCast] at this
    omega

/-- C1: For every non-empty list of floats and every `target_min ≤ target_max`,
`map_to_int_range` returns a list of integers with the same length and order as
the input, and every output element lies within `[target_min, target_max]`
inclusive. -/
theorem C1_normalizer_bounds (values : List ℚ) (target_min target_max : ℤ)
    (hne : values ≠ []) (hle : target_min ≤ target_max) :
    ∃ out : List ℤ, map_to_int_range values target_min target_max = some out ∧
      out.length = values.length ∧
      ∀ x ∈ out, target_min ≤ x ∧ x ≤ target_max := by
  by_cases heq : min_value values = max_value values
  · refine ⟨_, map_to_int_range_degenerate hne heq target_min target_max, by simp, ?_⟩
    intro x hx
    rcases List.mem_map.mp hx with ⟨v, _, rfl⟩
    constructor
    · exact le_min (le_max_left _ _) hle
    · exact min_le_right _ _
  · refine ⟨_, map_to_int_range_general hne heq target_min target_max, by simp, ?_⟩
    intro x hx
    rcases List.mem_map.mp hx with ⟨v, hv, rfl⟩
    exact general_elem_bounds hne heq hv hle

unseal List.merge List.mergeSort Rat.add Rat.sub Rat.mul Rat.inv in
theorem C1_witness :
    ([(0 : ℚ), 2, 5] ≠ []) ∧ ((1 : ℤ) ≤ 10) ∧
      (∃ out : List ℤ, map_to_int_range [(0 : ℚ), 2, 5] 1 10 = some out ∧
        out.length = ([(0 : ℚ), 2, 5]).length ∧
        ∀ x ∈ out, (1 : ℤ) ≤ x ∧ x ≤ 10) :=
  ⟨by decide, by decide, C1_normalizer_bounds [(0 : ℚ), 2, 5] 1 10 (by decide) (by decide)⟩

/-- C2: when the minimum of the list equals its maximum (in particular for
every singleton list), `map_to_int_range` returns the constant list whose every
element is `clamp(int(min_value), target_min, target_max)`; the early-return
branch taken here performs no division. -/
theorem C2_normalizer_degenerate (values : List ℚ) (target_min target_max : ℤ)
    (hne : values ≠ []) (heq : min_value values = max_value values) :
    map_to_int_range values target_min target_max =
      some (values.map fun _ => min (max target_min (pyInt (min_value values))) target_max) ∧
    (values.map fun (_ : ℚ) => min (max target_min (pyInt (min_value values))) target_max).length
      = values.length :=
  ⟨map_to_int_range_degenerate hne heq target_min target_max, by simp⟩

unseal List.merge List.mergeSort Rat.add Rat.sub Rat.mul Rat.inv in
theorem C2_witness :
    ([(50 : ℚ)] ≠ []) ∧ (min_value [(50 : ℚ)] = max_value [(50 : ℚ)]) ∧
      (map_to_int_range [(50 : ℚ)] 1 10 =
        some (([(50 : ℚ)]).map fun _ => min (max 1 (pyInt (min_value [(50 : ℚ)]))) 10) ∧
      (([(50 : ℚ)]).map fun (_ : ℚ) => min (max (1 : ℤ) (pyInt (min_value [(50 : ℚ)]))) 10).length
        = ([(50 : ℚ)]).length) ∧
      map_to_int_range [(50 : ℚ)] 1 10 = some [10] :=
  ⟨by decide, by decide,
    C2_normalizer_degenerate [(50 : ℚ)] 1 10 (by decide) (by decide), by decide⟩

-- The general branch maps any position holding the maximum value exactly to
-- `target_max`: the ratio `(max - min) / (max - min)` is exactly 1, so the
-- truncation `int(target_range * 1)` returns `target_range` itself.

theorem general_elem_at_max {values : List ℚ} (hne : values ≠ [])
    (hneq : min_value values ≠ max_value values) (target_min target_max : ℤ) :
    target_min + pyInt (((target_max - target_min : ℤ) : ℚ) *
        ((max_value values - min_value values) / (max_value values - min_value values)))
      = target_max := by
  have hfr : max_value values - min_value values ≠ 0 :=
    sub_ne_zero.mpr (Ne.symm hneq)
  rw [div_self hfr, mul_one, pyInt_intCast]
  omega

theorem map_to_int_range_at_max {values : List ℚ} {target_min target_max : ℤ}
    {out : List ℤ} {i : ℕ}
    (hout : map_to_int_range values target_min target_max = some out)
    (hneq : min_value values ≠ max_value values)
    (hi : values[i]? = some (max_value values)) :
    out[i]? = some target_max := by
  have hne : values ≠ [] := by
    intro h; subst h; simp [map_to_int_range] at hout
  rw [map_to_int_range_general hne hneq target_min target_max] at hout
  have hout' := Option.some.inj hout
  subst hout'
  rw [List.getElem?_map, hi]
  simp only [Option.map_some']
  rw [general_elem_at_max hne hneq target_min target_max]

/-- C3 counterexample to the second half of the claim: there is no input list
with distinct minimum and maximum on which the maximum input value maps to
`target_max - 1`; the maximum always maps exactly to `target_max`. -/
theorem C3_counterexample :
    ¬ ∃ (values : List ℚ) (target_min target_max : ℤ) (i : ℕ) (out : List ℤ),
        map_to_int_range values target_min target_max = some out ∧
        min_value values ≠ max_value values ∧
        values[i]? = some (max_value values) ∧
        out[i]? = some (target_max - 1) := by
  rintro ⟨values, target_min, target_max, i, out, hout, hneq, hi, hbad⟩
  have := map_to_int_range_at_max hout hneq hi
  rw [this] at hbad
  have := Option.some.inj hbad
  omega

/-- C3 amended: in the general (non-degenerate) case `map_to_int_range`
computes `output_i = target_min + int(target_range * (value_i - min_value) /
(max_value - min_value))` using truncation toward zero; and every position
holding the maximum input value maps exactly to `target_max` (never to
`target_max - 1`). -/
theorem C3_general_formula (values : List ℚ) (target_min target_max : ℤ)
    (hne : values ≠ []) (hneq : min_value values ≠ max_value values) :
    map_to_int_range values target_min target_max =
      some (values.map fun v =>
        target_min + pyInt (((target_max - target_min : ℤ) : ℚ) *
          ((v - min_value values) / (max_value values - min_value values)))) ∧
    ∀ (i : ℕ) (out : List ℤ),
      map_to_int_range values target_min target_max = some out →
      values[i]? = some (max_value values) →
      out[i]? = some target_max :=
  ⟨map_to_int_range_general hne hneq target_min target_max,
   fun _ _ hout hi => map_to_int_range_at_max hout hneq hi⟩

unseal List.merge List.mergeSort Rat.add Rat.sub Rat.mul Rat.inv in
theorem C3_witness :
    ([(0 : ℚ), 2, 5] ≠ []) ∧ (min_value [(0 : ℚ), 2, 5] ≠ max_value [(0 : ℚ), 2, 5]) ∧
      (map_to_int_range [(0 : ℚ), 2, 5] 1 10 =
        some (([(0 : ℚ), 2, 5]).map fun v =>
          1 + pyInt ((((10 : ℤ) - 1 : ℤ) : ℚ) *
            ((v - min_value [(0 : ℚ), 2, 5]) /
              (max_value [(0 : ℚ), 2, 5] - min_value [(0 : ℚ), 2, 5])))) ∧
      ∀ (i : ℕ) (out : List ℤ),
        map_to_int_range [(0 : ℚ), 2, 5] 1 10 = some out →
        ([(0 : ℚ), 2, 5])[i]? = some (max_value [(0 : ℚ), 2, 5]) →
        out[i]? = some 10) ∧
      map_to_int_range [(0 : ℚ), 2, 5] 1 10 = some [1, 4, 10] :=
  ⟨by decide, by decide,
    C3_general_formula [(0 : ℚ), 2, 5] 1 10 (by decide) (by decide), by decide⟩

/-- C4: `map_to_int_range` is monotone: if position `i` of the input holds a
strictly smaller value than position `j`, then the output at position `i` is
at most the output at position `j` (for a well-ordered target range). -/
theorem C4_monotone (values : List ℚ) (target_min target_max : ℤ) (i j : ℕ) (a b : ℚ)
    (out : List ℤ)
    (hle : target_min ≤ target_max)
    (hout : map_to_int_range values target_min target_max = some out)
    (ha : values[i]? = some a) (hb : values[j]? = some b) (hab : a < b) :
    ∃ oa ob : ℤ, out[i]? = some oa ∧ out[j]? = some ob ∧ oa ≤ ob := by
  have hne : values ≠ [] := by
    intro h; subst h; simp [map_to_int_range] at hout
  have hma : a ∈ values := by
    have := List.getElem?_eq_some_iff.mp ha
    rcases this with ⟨h1, h2⟩
    exact h2 ▸ List.getElem_mem h1
  have hmb : b ∈ values := by
    have := List.getElem?_eq_some_iff.mp hb
    rcases this with ⟨h1, h2⟩
    exact h2 ▸ List.getElem_mem h1
  have hneq : min_value values ≠ max_value values := by
    intro heq
    have h1 : min_value values ≤ a := min_value_le hma
    have h2 : b ≤ max_value values := le_max_value hmb
    rw [← heq] at h2
    linarith
  rw [map_to_int_range_general hne hneq target_min target_max] at hout
  have hout' := Option.some.inj hout
  subst hout'
  have hlt : min_value values < max_value values := min_value_lt_max_value hne hneq
  have hfr : (0 : ℚ) < max_value values - min_value values := sub_pos.mpr hlt
  have hr0 : (0 : ℚ) ≤ ((target_max - target_min : ℤ) : ℚ) := by
    exact_mod_cast sub_nonneg.mpr hle
  refine ⟨target_min + pyInt (((target_max - target_min : ℤ) : ℚ) *
      ((a - min_value values) / (max_value values - min_value values))),
    target_min + pyInt (((target_max - target_min : ℤ) : ℚ) *
      ((b - min_value values) / (max_value values - min_value values))), ?_, ?_, ?_⟩
  · rw [List.getElem?_map, ha]; rfl
  · rw [List.getElem?_map, hb]; rfl
  · have harga : (0 : ℚ) ≤ ((target_max - target_min : ℤ) : ℚ) *
        ((a - min_value values) / (max_value values - min_value values)) :=
      mul_nonneg hr0 (div_nonneg (sub_nonneg.mpr (min_value_le hma)) (le_of_lt hfr))
    have hargb : (0 : ℚ) ≤ ((target_max - target_min : ℤ) : ℚ) *
        ((b - min_value values) / (max_value values - min_value values)) :=
      mul_nonneg hr0 (div_nonneg (sub_nonneg.mpr (min_value_le hmb)) (le_of_lt hfr))
    rw [pyInt_eq_floor harga, pyInt_eq_floor hargb]
    have hmono : ((target_max - target_min : ℤ) : ℚ) *
        ((a - min_value values) / (max_value values - min_value values)) ≤
        ((target_max - target_min : ℤ) : ℚ) *
        ((b - min_value values) / (max_value values - min_value values)) := by
      apply mul_le_mul_of_nonneg_left _ hr0
      exact (div_le_div_right hfr).mpr (by linarith)
    have := Int.floor_le_floor hmono
    omega

unseal List.merge List.mergeSort Rat.add Rat.sub Rat.mul Rat.inv in
theorem C4_witness :
    ((1 : ℤ) ≤ 10) ∧
      (map_to_int_range [(0 : ℚ), 1] 1 10 = some [1, 10]) ∧
      (([(0 : ℚ), 1])[0]? = some 0) ∧ (([(0 : ℚ), 1])[1]? = some 1) ∧ ((0 : ℚ) < 1) ∧
      ∃ oa ob : ℤ, ([(1 : ℤ), 10])[0]? = some oa ∧ ([(1 : ℤ), 10])[1]? = some ob ∧ oa ≤ ob :=
  ⟨by decide, by decide, by decide, by decide, by decide,
    C4_monotone [(0 : ℚ), 1] 1 10 0 1 0 1 [1, 10] (by decide) (by decide)
      (by decide) (by decide) (by decide)⟩

/-!
String machinery, mirroring the exact Python 2 string operations used by the
source. Everything operates on `List Char` so that all definitions reduce in
the kernel.
-/

/-- ASCII uppercase test: the regex class `[A-Z]` (Python 2 default, no
re.UNICODE). -/
def isUpperAZ (c : Char) : Bool :=
  'A' ≤ c && c ≤ 'Z'

/-- ASCII lowercase test: the regex class `[a-z]`. -/
def isLowerAZ (c : Char) : Bool :=
  'a' ≤ c && c ≤ 'z'

/-- ASCII digit test: the regex class `[0-9]`. -/
def isDigit09 (c : Char) : Bool :=
  '0' ≤ c && c ≤ '9'

/-- The regex class `\w` in Python 2 without re.UNICODE: `[a-zA-Z0-9_]`. -/
def isWordChar (c : Char) : Bool :=
  isUpperAZ c || isLowerAZ c || isDigit09 c || c == '_'

/-- Whether `needle` occurs at the start of `hay` (used to implement the
Python substring operator `in`). -/
def listStartsWith : List Char → List Char → Bool
  | _, [] => true
  | [], _ :: _ => false
  | a :: as, b :: bs => a == b && listStartsWith as bs

/-- Whether `sub` occurs contiguously inside `hay`: the Python 2 expression
`sub in hay` on byte strings. -/
def listContainsSub (hay sub : List Char) : Bool :=
  if listStartsWith hay sub then true
  else
    match hay with
    | [] => false
    | _ :: t => listContainsSub t sub

/-- Python `needle in hay` (substring containment). -/
def strContains (hay needle : String) : Bool :=
  listContainsSub hay.toList needle.toList

/-- Python `s.endswith(suffix)`. -/
def pyEndsWith (s suffix : String) : Bool :=
  let sl := s.toList
  let su := suffix.toList
  decide (su.length ≤ sl.length) && decide (sl.drop (sl.length - su.length) = su)

/-- Python `s[:-n]` for `n > 0` (used as `styleweight[:-6]` on line 215): all
but the last `n` characters. -/
def strDropRight (s : String) (n : ℕ) : String :=
  String.mk (s.toList.take (s.toList.length - n))


/-!
The canonical style-weight table and the filename grammar
(`_KNOWN_WEIGHTS`, `StyleWeight`, `FamilyName`, `FileFamilyStyleWeight`).
-/

/-- `_KNOWN_WEIGHTS` (lines 188-200): ordered style-token to weight table.
The empty-string key carries the source comment `# Family-Italic resolves to
this`. -/
def KNOWN_WEIGHTS : List (String × ℤ) :=
  [("Thin", 100),
   ("Hairline", 100),
   ("ExtraLight", 200),
   ("Light", 300),
   ("Regular", 400),
   ("", 400),
   ("Medium", 500),
   ("SemiBold", 600),
   ("Bold", 700),
   ("ExtraBold", 800),
   ("Black", 900)]

/-- `StyleWeight` (lines 206-217): breaks a style/weight token into a
(style, weight) pair; a token absent from the table raises `KeyError` (the
Python dict subscript), modelled as `PyResult.error .KeyError`. -/
def StyleWeight (styleweight : String) : PyResult (String × ℤ) :=
  if pyEndsWith styleweight "Italic" then
    match KNOWN_WEIGHTS.lookup (strDropRight styleweight 6) with
    | some w => .ok ("italic", w)
    | none => .error .KeyError
  else
    match KNOWN_WEIGHTS.lookup styleweight with
    | some w => .ok ("normal", w)
    | none => .error .KeyError

/-- One pass of `re.sub('(.)([A-Z][a-z]+)', r'\1 \2', fontname)` (line 231):
scan left to right; a match is any non-newline character followed by an
uppercase letter and a maximal nonempty lowercase run; the replacement keeps
both groups with a space between and scanning resumes after the match. -/
def sub1Go : ℕ → List Char → List Char
  | 0, l => l
  | _ + 1, [] => []
  | _ + 1, [c] => [c]
  | fuel + 1, c :: u :: rest =>
    if c != '\n' && isUpperAZ u &&
        (match rest with | r :: _ => isLowerAZ r | [] => false) then
      c :: ' ' :: u :: (rest.takeWhile isLowerAZ ++ sub1Go fuel (rest.dropWhile isLowerAZ))
    else
      c :: sub1Go fuel (u :: rest)

/-- Entry point of `sub1Go` with enough fuel (each step strictly shortens the
list, so `l.length` steps always suffice; the fuel only makes the recursion
structural). -/
def sub1 (l : List Char) : List Char :=
  sub1Go l.length l

/-- One pass of `re.sub('([a-z])([0-9]+)', r'\1 \2', fontname)` (line 233). -/
def sub2Go : ℕ → List Char → List Char
  | 0, l => l
  | _ + 1, [] => []
  | _ + 1, [c] => [c]
  | fuel + 1, c :: d :: rest =>
    if isLowerAZ c && isDigit09 d then
      c :: ' ' :: d :: (rest.takeWhile isDigit09 ++ sub2Go fuel (rest.dropWhile isDigit09))
    else
      c :: sub2Go fuel (d :: rest)

/-- Entry point of `sub2Go` with enough fuel (fuel only makes the recursion
structural, as in `sub1`). -/
def sub2 (l : List Char) : List Char :=
  sub2Go l.length l

/-- One pass of `re.sub('([a-z0-9])([A-Z])', r'\1 \2', fontname)` (line 235):
both groups are single characters, and scanning resumes after the uppercase
character. -/
def sub3Go : ℕ → List Char → List Char
  | 0, l => l
  | _ + 1, [] => []
  | _ + 1, [c] => [c]
  | fuel + 1, c :: u :: rest =>
    if (isLowerAZ c || isDigit09 c) && isUpperAZ u then
      c :: ' ' :: u :: sub3Go fuel rest
    else
      c :: sub3Go fuel (u :: rest)

/-- Entry point of `sub3Go` with enough fuel (fuel only makes the recursion
structural, as in `sub1`). -/
def sub3 (l : List Char) : List Char :=
  sub3Go l.length l

/-- `FamilyName` (lines 220-235): inserts spaces at CamelCase and
letter-digit boundaries, e.g. HPSimplifiedSans => HP Simplified Sans. -/
def FamilyName (fontname : String) : String :=
  String.mk (sub3 (sub2 (sub1 fontname.toList)))

/-- The tail `(\w+)\.ttf$` of the filename regex, matched against the whole
remainder `r` (the `$` anchors the literal `.ttf` at the end of the string;
`.` is not a word character, so the split is unique): returns the `\w+`
group. -/
def matchWeightTtf (r : List Char) : Option (List Char) :=
  if decide (5 ≤ r.length) && decide (r.drop (r.length - 4) = ['.', 't', 't', 'f'])
      && (r.take (r.length - 4)).all isWordChar then
    some (r.take (r.length - 4))
  else none

/-- Attempts to match the filename regex (first group: one or more characters
other than slash and dash; then a dash; then `(\w+)\.ttf` anchored at the
end) starting exactly at the head of
`s`. The greedy first group must be the maximal run of characters other
than slash and dash: a shorter prefix would have to be followed by a dash,
but by maximality the following character is neither slash nor dash. -/
def matchFamilyWeightHere (s : List Char) : Option (List Char × List Char) :=
  let run := s.takeWhile (fun c => c != '/' && c != '-')
  if run.isEmpty then none
  else
    match s.drop run.length with
    | '-' :: r =>
      match matchWeightTtf r with
      | some w => some (run, w)
      | none => none
    | _ => none

/-- `re.search` of the FAMILY_WEIGHT_REGEX (line 253; first group as in
`matchFamilyWeightHere`): leftmost match, returning the two capture groups. -/
def searchFamilyWeight : List Char → Option (List Char × List Char)
  | [] => none
  | c :: rest =>
    match matchFamilyWeightHere (c :: rest) with
    | some g => some g
    | none => searchFamilyWeight rest

/-- The namedtuple `FileFamilyStyleWeightTuple` (lines 202-203). -/
structure FileFamilyStyleWeightTuple where
  file : String
  family : String
  style : String
  weight : ℤ
  deriving DecidableEq, Repr

/-- `FileFamilyStyleWeight` (lines 242-261): parses a Google Fonts standard
filename. `ParseError` when the regex does not match; a `KeyError` raised by
`StyleWeight` on an unknown token propagates to the caller. -/
def FileFamilyStyleWeight (filename : String) : PyResult FileFamilyStyleWeightTuple :=
  match searchFamilyWeight filename.toList with
  | none => .error .ParseError
  | some (g1, g2) =>
    match StyleWeight (String.mk g2) with
    | .error e => .error e
    | .ok sw => .ok ⟨filename, FamilyName (String.mk g1), sw.1, sw.2⟩

/-- C7: parsing `Lobster-Regular.ttf` with the naming-convention grammar
yields family "Lobster", style "normal", weight 400, and parsing
`OpenSans-BoldItalic.ttf` yields style "italic", weight 700. -/
theorem C7_grammar_roundtrip :
    FileFamilyStyleWeight "Lobster-Regular.ttf" =
      .ok ⟨"Lobster-Regular.ttf", "Lobster", "normal", 400⟩ ∧
    FileFamilyStyleWeight "OpenSans-BoldItalic.ttf" =
      .ok ⟨"OpenSans-BoldItalic.ttf", "Open Sans", "italic", 700⟩ := by
  decide

/-- C10: the bare style token "Italic" is accepted by `StyleWeight` and
resolves to style "italic" with weight 400, because the canonical table maps
the empty-string token to 400. -/
theorem C10_bare_italic :
    StyleWeight "Italic" = .ok ("italic", 400) ∧
    KNOWN_WEIGHTS.lookup "" = some 400 := by
  decide

/-!
The identifier resolver (`get_gfn`, lines 298-340) and its helpers
(`_FileFamilyStyleWeights`, lines 264-295). The file system, the sidecar
METADATA.pb file and the font's name table are modelled by `FontEnv`.
-/

/-- Python 2 `cmp` on integers. -/
def cmpInt (a b : ℤ) : ℤ :=
  if a < b then -1 else if a = b then 0 else 1

/-- Lexicographic three-way comparison of character lists: Python 2 `cmp` on
byte strings. -/
def cmpCharList : List Char → List Char → ℤ
  | [], [] => 0
  | [], _ :: _ => -1
  | _ :: _, [] => 1
  | a :: as, b :: bs => if a < b then -1 else if b < a then 1 else cmpCharList as bs

/-- Python 2 `cmp` on strings. -/
def cmpStr (a b : String) : ℤ :=
  cmpCharList a.toList b.toList

/-- The comparator `_Cmp` (lines 286-287):
`cmp(r1.weight, r2.weight) or -cmp(r1.style, r2.style)` — Python `or`
returns the first operand when it is nonzero. -/
def cmpFFSW (r1 r2 : FileFamilyStyleWeightTuple) : ℤ :=
  if cmpInt r1.weight r2.weight ≠ 0 then cmpInt r1.weight r2.weight
  else -(cmpStr r1.style r2.style)

/-- The list comprehension `[FileFamilyStyleWeight(f) for f in files]`
(line 285): left to right, the first raised exception propagates. -/
def mapFFSW : List String → PyResult (List FileFamilyStyleWeightTuple)
  | [] => .ok []
  | f :: fs =>
    match FileFamilyStyleWeight f with
    | .error e => .error e
    | .ok r =>
      match mapFFSW fs with
      | .error e => .error e
      | .ok rs => .ok (r :: rs)

/-- `_FileFamilyStyleWeights(fontdir)` (lines 264-295). The directory is
modelled by whether it exists (`isDir`, line 278) and by the `*.ttf` glob
result (`files`, line 281). Python 2 `sorted(result, _Cmp)` is a stable sort
by the comparator. -/
def FileFamilyStyleWeights (isDir : Bool) (files : List String) :
    PyResult (List FileFamilyStyleWeightTuple) :=
  if !isDir then .error .OSError
  else if files.isEmpty then .error .OSError
  else
    match mapFFSW files with
    | .error e => .error e
    | .ok result =>
      let sorted := result.mergeSort (fun r1 r2 => decide (cmpFFSW r1 r2 ≤ 0))
      if 1 < ((sorted.map (fun i => i.family)).dedup).length then .error .RuntimeError
      else .ok sorted

/-- One entry of a `METADATA.pb` `fonts` list (`font.filename`, `font.style`,
`font.weight` as read on lines 304-306). -/
structure MetaFont where
  filename : String
  style : String
  weight : ℤ
  deriving DecidableEq, Repr

/-- A parsed `METADATA.pb` message (`family.name` and `family.fonts`, lines
303-306). -/
structure FamilyMeta where
  name : String
  fonts : List MetaFont
  deriving DecidableEq, Repr

/-- One record of `ttfont['name'].names` (lines 323-327), after decoding and
before the ascii/strip cleanup which `get_gfn` itself applies. -/
structure NameRecord where
  nameID : ℕ
  text : String
  deriving DecidableEq, Repr

/-- `NAMEID_FONT_FAMILY_NAME` from the external `constants` module
(OpenType name table ID 1). -/
def NAMEID_FONT_FAMILY_NAME : ℕ := 1

/-- `NAMEID_FONT_SUBFAMILY_NAME` from the external `constants` module
(OpenType name table ID 2). -/
def NAMEID_FONT_SUBFAMILY_NAME : ℕ := 2

/-- The environment a single `get_gfn(fontfile, ttfont)` call observes.

* `metadata`: `none` when no `METADATA.pb` exists next to the font file
  (`os.path.exists`, line 302); `some (.error e)` when the file exists but
  `get_FamilyProto_Message` raises while reading or parsing it
  (`text_format.Merge` raises on malformed input, and nothing in `get_gfn`
  catches that); `some (.ok m)` when it parses.
* `isDir` and `dirFiles`: the directory-existence test and the `*.ttf` glob
  used by `_FileFamilyStyleWeights`.
* `nameTable`: the decoded `ttfont['name'].names` records; `.error` models a
  font whose name table cannot be read or decoded (`KeyError` on
  `ttfont['name']` or a decode failure), which the bare `except` on line 333
  catches. -/
structure FontEnv where
  metadata : Option (PyResult FamilyMeta)
  isDir : Bool
  dirFiles : List String
  nameTable : PyResult (List NameRecord)
  deriving DecidableEq, Repr

/-- Python 2 `str.strip()` whitespace set. -/
def pyIsSpace (c : Char) : Bool :=
  c == ' ' || c == '\t' || c == '\n' || c == '\r' || c == '\x0b' || c == '\x0c'

/-- Python `s.strip()`. -/
def pyStrip (s : String) : String :=
  String.mk (((s.toList.dropWhile pyIsSpace).reverse.dropWhile pyIsSpace).reverse)

/-- `entry.string.decode(...).encode('ascii', 'ignore')`: drop the non-ASCII
characters. -/
def asciiIgnore (s : String) : String :=
  String.mk (s.toList.filter (fun c => decide (c.toNat < 128)))

/-- The cleanup applied to every name-table entry on lines 325 and 327. -/
def cleanEntry (s : String) : String :=
  pyStrip (asciiIgnore s)

/-- `"{}:{}:{}".format(family, style, weight)` as used on lines 306, 313 and
330. -/
def mkGfn (family style : String) (weight : ℤ) : String :=
  family ++ ":" ++ style ++ ":" ++ toString weight

/-- The loop over `ttfont['name'].names` (lines 323-327): the last
family-name entry wins, each subfamily entry runs `StyleWeight` immediately
(so a `KeyError` aborts the loop and is caught by the enclosing `try`). -/
def nameTableLoop : List NameRecord → Option String → Option (String × ℤ) →
    PyResult (Option String × Option (String × ℤ))
  | [], fam, sw => .ok (fam, sw)
  | e :: rest, fam, sw =>
    let fam' := if e.nameID = NAMEID_FONT_FAMILY_NAME then some (cleanEntry e.text) else fam
    if e.nameID = NAMEID_FONT_SUBFAMILY_NAME then
      match StyleWeight (cleanEntry e.text) with
      | .error err => .error err
      | .ok pair => nameTableLoop rest fam' (some pair)
    else nameTableLoop rest fam' sw

/-- The name-table fallback step (lines 318-335): returns `some gfn` when it
produces an identifier, `none` when it does not (including every raising
path, all swallowed by the bare `except`: a missing or undecodable name
table, a `KeyError` from `StyleWeight`, the `NameError` when no family or no
subfamily entry bound the local variables, and the empty-family guard on
line 329). -/
def nameTableGfn (table : PyResult (List NameRecord)) : Option String :=
  match table with
  | .error _ => none
  | .ok entries =>
    match nameTableLoop entries none none with
    | .error _ => none
    | .ok (none, _) => none
    | .ok (some fam, sw) =>
      if fam = "" then none
      else
        match sw with
        | none => none
        | some (style, weight) => some (mkGfn fam style weight)

/-- `get_gfn(fontfile, ttfont)` (lines 298-340). The only uncaught exception
path is a `METADATA.pb` that exists but fails to parse (line 303 is not
inside any `try`). -/
def get_gfn (env : FontEnv) (fontfile : String) : PyResult String :=
  match env.metadata with
  | some (.error e) => .error e
  | some (.ok family) =>
    let gfn :=
      match family.fonts.find? (fun font => strContains fontfile font.filename) with
      | some font => mkGfn family.name font.style font.weight
      | none => "unknown"
    .ok (if gfn = "unknown" then (nameTableGfn env.nameTable).getD "unknown" else gfn)
  | none =>
    let gfn :=
      match FileFamilyStyleWeights env.isDir env.dirFiles with
      | .error _ => "unknown"
      | .ok attributes =>
        match attributes.find? (fun a => strContains fontfile a.file) with
        | some a => mkGfn a.family a.style a.weight
        | none => "unknown"
    .ok (if gfn = "unknown" then (nameTableGfn env.nameTable).getD "unknown" else gfn)

/-- Totality of `get_gfn` whenever the sidecar metadata file, if present,
parses: both fallback sources sit inside `try`/bare-`except` blocks, so no
other path can raise. -/
theorem get_gfn_total (env : FontEnv) (fontfile : String)
    (h : ∀ e, env.metadata ≠ some (PyResult.error e)) :
    ∃ s, get_gfn env fontfile = .ok s := by
  unfold get_gfn
  cases hm : env.metadata with
  | none => exact ⟨_, rfl⟩
  | some r =>
    cases r with
    | error e => exact absurd hm (h e)
    | ok fam => exact ⟨_, rfl⟩

/-- C5 amended: `get_gfn` always returns a string (falling back to the
sentinel "unknown") provided that the sidecar `METADATA.pb`, when present,
is readable and parses; a malformed sidecar metadata file is the one
uncaught exception path (see `C5_counterexample`). -/
theorem C5_resolver_never_fails (env : FontEnv) (fontfile : String)
    (h : ∀ e, env.metadata ≠ some (PyResult.error e)) :
    ∃ s, get_gfn env fontfile = .ok s :=
  get_gfn_total env fontfile h

/-- A font file sitting next to a `METADATA.pb` that exists but does not
parse: `get_FamilyProto_Message` raises (line 303) outside any `try`. -/
def malformedMetadataEnv : FontEnv :=
  { metadata := some (.error .ParseError), isDir := true,
    dirFiles := ["fonts/ofl/foo/Foo-Regular.ttf"], nameTable := .ok [] }

/-- C5 counterexample: with a malformed sidecar metadata file, the resolver
raises instead of returning a string — it does not "never fail". -/
theorem C5_counterexample :
    get_gfn malformedMetadataEnv "fonts/ofl/foo/Foo-Regular.ttf" =
      .error .ParseError := by
  decide

/-- A font file with no sidecar metadata whose name table is unreadable. -/
def okEnv : FontEnv :=
  { metadata := none, isDir := false, dirFiles := [], nameTable := .error .KeyError }

theorem C5_witness :
    (∀ e, okEnv.metadata ≠ some (PyResult.error e)) ∧
      ∃ s, get_gfn okEnv "fonts/Unknown.ttf" = .ok s :=
  ⟨fun _ h => Option.noConfusion h,
    C5_resolver_never_fails okEnv "fonts/Unknown.ttf" (fun _ h => Option.noConfusion h)⟩

/-- C6: a style/weight token absent from the canonical table (and not an
"Italic"-suffixed form of a known token) makes `StyleWeight` raise `KeyError`
rather than return a default weight; and in the naming-convention
configuration (no sidecar metadata) every such failure is caught by
`get_gfn`, which never raises there — it falls through to the name-table
source. -/
theorem C6_unknown_token (t : String)
    (h1 : KNOWN_WEIGHTS.lookup t = none)
    (h2 : KNOWN_WEIGHTS.lookup (strDropRight t 6) = none ∨ pyEndsWith t "Italic" = false) :
    StyleWeight t = .error .KeyError ∧
    ∀ (env : FontEnv) (fontfile : String), env.metadata = none →
      ∃ s, get_gfn env fontfile = .ok s := by
  constructor
  · unfold StyleWeight
    cases hEnds : pyEndsWith t "Italic" with
    | true =>
      rcases h2 with h2 | h2
      · rw [h2]; simp
      · rw [hEnds] at h2; cases h2
    | false => rw [h1]; simp
  · intro env fontfile hm
    exact get_gfn_total env fontfile (fun e h => by rw [hm] at h; cases h)

/-- A directory containing only `Lobster-Chunky.ttf`, no sidecar metadata,
and a font with an empty name table. -/
def chunkyEnv : FontEnv :=
  { metadata := none, isDir := true, dirFiles := ["Lobster-Chunky.ttf"],
    nameTable := .ok [] }

unseal List.merge List.mergeSort in
theorem C6_witness :
    (KNOWN_WEIGHTS.lookup "Chunky" = none) ∧
    (KNOWN_WEIGHTS.lookup (strDropRight "Chunky" 6) = none ∨
      pyEndsWith "Chunky" "Italic" = false) ∧
    (StyleWeight "Chunky" = .error .KeyError) ∧
    (∃ s, get_gfn chunkyEnv "Lobster-Chunky.ttf" = .ok s) ∧
    get_gfn chunkyEnv "Lobster-Chunky.ttf" = .ok "unknown" :=
  ⟨by decide, by decide,
    (C6_unknown_token "Chunky" (by decide) (by decide)).1,
    (C6_unknown_token "Chunky" (by decide) (by decide)).2 chunkyEnv "Lobster-Chunky.ttf" rfl,
    by decide⟩

/-!
The batch analyzer (`analyse_fonts`, lines 343-372) and the blacklist
(lines 109-120, 376-382).
-/

/-- `BLACKLIST` (lines 109-120). -/
def BLACKLIST : List String :=
  ["Padauk", "KumarOne", "AdobeBlank", "Phetsarath", "Corben", "Rubik"]

/-- `is_blacklisted(filename)` (lines 376-382): whether some blacklist entry
occurs in the file name (Python returns `True`, or the falsy `None`). -/
def is_blacklisted (filename : String) : Bool :=
  BLACKLIST.any (fun name => strContains filename name)

/-- The per-font record assembled on lines 364-371. -/
structure FontRecord where
  weight : ℚ
  width : ℚ
  angle : ℚ
  img_weight : String
  usage : String
  gfn : String
  fontfile : String
  deriving DecidableEq, Repr

/-- Outcomes of the per-file external calls made by `analyse_fonts`:
`get_darkness_and_width` (darkness, width, base64 preview), `get_angle`, and
`get_gfn`. They are modelled as total functions of the file path — the
claims proved over `analyse_fonts` hold for every possible outcome of these
calls. -/
structure AnalyseEnv where
  darkness : String → ℚ
  width : String → ℚ
  img : String → String
  angle : String → ℚ
  gfn : String → String

/-- Python dict assignment `fontinfo[gfn] = record` (line 364): replaces the
value at an existing key, otherwise appends the new binding. -/
def dictInsert (m : List (String × FontRecord)) (k : String) (v : FontRecord) :
    List (String × FontRecord) :=
  if m.any (fun p => p.1 == k) then
    m.map (fun p => if p.1 == k then (k, v) else p)
  else m ++ [(k, v)]

/-- Result of `analyse_fonts`: the global `blacklisted` accumulator, the
`fontinfo` dict, and — as instrumentation — the `processed` list of files on
which `TTFont`, the metric extractor and the identifier resolver were
actually invoked (everything after the blacklist check on line 352). -/
structure AnalyseResult where
  blacklisted : List String
  fontinfo : List (String × FontRecord)
  processed : List String
  deriving Repr

/-- The loop of `analyse_fonts` (lines 350-371) over the sorted file list. -/
def analyseLoop (env : AnalyseEnv) : List String → List String →
    List (String × FontRecord) → List String → AnalyseResult
  | [], bl, info, proc => ⟨bl, info, proc⟩
  | f :: rest, bl, info, proc =>
    if is_blacklisted f then
      analyseLoop env rest (bl ++ [f]) info proc
    else
      let record : FontRecord :=
        { weight := env.darkness f, width := env.width f, angle := env.angle f,
          img_weight := env.img f, usage := "unknown", gfn := env.gfn f,
          fontfile := f }
      analyseLoop env rest bl (dictInsert info (env.gfn f) record) (proc ++ [f])

/-- Python `sorted(files)` (line 350): lexicographic string sort. -/
def sortedFiles (files : List String) : List String :=
  files.mergeSort (fun a b => decide (cmpCharList a.toList b.toList ≤ 0))

/-- `analyse_fonts(files)` (lines 343-372), starting from the empty global
`blacklisted` list and the empty `fontinfo` dict. -/
def analyse_fonts (env : AnalyseEnv) (files : List String) : AnalyseResult :=
  analyseLoop env (sortedFiles files) [] [] []

theorem mem_dictInsert {m : List (String × FontRecord)} {k : String} {v : FontRecord}
    {p : String × FontRecord} (hp : p ∈ dictInsert m k v) : p ∈ m ∨ p = (k, v) := by
  unfold dictInsert at hp
  by_cases hk : m.any (fun q => q.1 == k)
  · rw [if_pos hk] at hp
    rcases List.mem_map.mp hp with ⟨q, hq, hpq⟩
    by_cases hqk : q.1 == k
    · right; rw [← hpq, if_pos hqk]
    · left; rw [← hpq, if_neg hqk]; exact hq
  · rw [if_neg hk] at hp
    rcases List.mem_append.mp hp with h | h
    · exact Or.inl h
    · exact Or.inr (List.mem_singleton.mp h)

theorem analyseLoop_blacklisted (env : AnalyseEnv) {f : String}
    (hb : is_blacklisted f = true) :
    ∀ (L bl : List String) (info : List (String × FontRecord)) (proc : List String),
      (f ∈ L ∨ f ∈ bl) → f ∈ (analyseLoop env L bl info proc).blacklisted := by
  intro L
  induction L with
  | nil =>
    intro bl info proc h
    rcases h with h | h
    · cases h
    · exact h
  | cons g rest ih =>
    intro bl info proc h
    unfold analyseLoop
    by_cases hg : is_blacklisted g
    · rw [if_pos hg]
      apply ih
      rcases h with h | h
      · rcases List.mem_cons.mp h with rfl | h
        · exact Or.inr (List.mem_append.mpr (Or.inr (List.mem_singleton.mpr rfl)))
        · exact Or.inl h
      · exact Or.inr (List.mem_append.mpr (Or.inl h))
    · rw [if_neg hg]
      apply ih
      rcases h with h | h
      · rcases List.mem_cons.mp h with rfl | h
        · exact absurd hb hg
        · exact Or.inl h
      · exact Or.inr h

theorem analyseLoop_processed (env : AnalyseEnv) {f : String}
    (hb : is_blacklisted f = true) :
    ∀ (L bl : List String) (info : List (String × FontRecord)) (proc : List String),
      f ∉ proc → f ∉ (analyseLoop env L bl info proc).processed := by
  intro L
  induction L with
  | nil => intro bl info proc h; exact h
  | cons g rest ih =>
    intro bl info proc h
    unfold analyseLoop
    by_cases hg : is_blacklisted g
    · rw [if_pos hg]; exact ih (bl ++ [g]) info proc h
    · rw [if_neg hg]
      apply ih
      intro hmem
      rcases List.mem_append.mp hmem with hmem | hmem
      · exact h hmem
      · rw [List.mem_singleton.mp hmem] at hb; exact hg hb

theorem analyseLoop_fontinfo (env : AnalyseEnv) {f : String}
    (hb : is_blacklisted f = true) :
    ∀ (L bl : List String) (info : List (String × FontRecord)) (proc : List String),
      (∀ p ∈ info, p.2.fontfile ≠ f) →
      ∀ p ∈ (analyseLoop env L bl info proc).fontinfo, p.2.fontfile ≠ f := by
  intro L
  induction L with
  | nil => intro bl info proc h; exact h
  | cons g rest ih =>
    intro bl info proc h
    unfold analyseLoop
    by_cases hg : is_blacklisted g
    · rw [if_pos hg]; exact ih (bl ++ [g]) info proc h
    · rw [if_neg hg]
      apply ih
      intro p hp
      rcases mem_dictInsert hp with hp | hp
      · exact h p hp
      · rw [hp]
        intro hcontra
        have hgf : g = f := hcontra
        rw [hgf] at hg
        exact hg hb

/-- C8: a blacklisted input file is recorded as blacklisted and skipped
entirely: `TTFont`, the metric extractor and the identifier resolver are
never invoked on it (it is absent from the `processed` instrumentation) and
it contributes no entry to the result mapping. -/
theorem C8_blacklist_skip (env : AnalyseEnv) (files : List String) (f : String)
    (hb : is_blacklisted f = true) (hf : f ∈ files) :
    f ∈ (analyse_fonts env files).blacklisted ∧
    f ∉ (analyse_fonts env files).processed ∧
    ∀ p ∈ (analyse_fonts env files).fontinfo, p.2.fontfile ≠ f := by
  have hsorted : f ∈ sortedFiles files :=
    (List.mergeSort_perm files _).mem_iff.mpr hf
  refine ⟨?_, ?_, ?_⟩
  · exact analyseLoop_blacklisted env hb _ [] [] [] (Or.inl hsorted)
  · exact analyseLoop_processed env hb _ [] [] [] (by intro h; cases h)
  · exact analyseLoop_fontinfo env hb _ [] [] [] (by intro p hp; cases hp)

/-- An environment whose per-file calls return fixed dummy values. -/
def constAnalyseEnv : AnalyseEnv :=
  { darkness := fun _ => 0, width := fun _ => 0, img := fun _ => "",
    angle := fun _ => 0, gfn := fun _ => "unknown" }

unseal List.merge List.mergeSort in
theorem C8_witness :
    (is_blacklisted "Rubik-Regular.ttf" = true) ∧
    ("Rubik-Regular.ttf" ∈ ["Rubik-Regular.ttf", "Lobster-Regular.ttf"]) ∧
    ("Rubik-Regular.ttf" ∈
      (analyse_fonts constAnalyseEnv ["Rubik-Regular.ttf", "Lobster-Regular.ttf"]).blacklisted ∧
    "Rubik-Regular.ttf" ∉
      (analyse_fonts constAnalyseEnv ["Rubik-Regular.ttf", "Lobster-Regular.ttf"]).processed ∧
    ∀ p ∈ (analyse_fonts constAnalyseEnv
        ["Rubik-Regular.ttf", "Lobster-Regular.ttf"]).fontinfo,
      p.2.fontfile ≠ "Rubik-Regular.ttf") :=
  ⟨by decide, by decide,
    C8_blacklist_skip constAnalyseEnv ["Rubik-Regular.ttf", "Lobster-Regular.ttf"]
      "Rubik-Regular.ttf" (by decide) (by decide)⟩

/-!
The `--missingmetadata` filter of `main` (lines 465-482).
-/

/-- Python `s.split(sep)` for a single-character separator, over character
lists. -/
def splitOnCharList (sep : Char) : List Char → List (List Char)
  | [] => [[]]
  | c :: t =>
    let r := splitOnCharList sep t
    if c == sep then [] :: r
    else
      match r with
      | [] => [[c]]
      | h :: t' => (c :: h) :: t'

/-- `name = row[0].split(':')[0]` (line 474): the text before the first
colon. -/
def familyToken (row0 : String) : String :=
  String.mk ((splitOnCharList ':' row0.toList).headI)

/-- Lines 474-476: when the family token contains a space, replace it by
`''.join(name.split(' '))`, i.e. the token with its spaces removed. -/
def normalizedFamilyToken (row0 : String) : String :=
  let name := familyToken row0
  if strContains name " " then
    String.mk ((splitOnCharList ' ' name.toList).foldl (fun acc piece => acc ++ piece) [])
  else name

/-- The inner loop of the missing-metadata filter (lines 477-480):
`for f, fname in enumerate(files_to_process): if name in fname:
files_to_process.pop(f); rejected.append(fname + ":" + row[0])`.
Python's `for`/`enumerate` keeps a live index into the list being mutated:
after `pop(f)` the iterator still advances, so the element that shifted into
position `f` is never examined. `i` is the iterator index; the fuel only
makes the recursion structural (`i` grows every step while the list never
grows, so `lst.length` steps always suffice, and when fuel runs out the
bound check fails too). -/
def popLoopGo (name row0 : String) : ℕ → ℕ → List String → List String →
    List String × List String
  | 0, _, lst, rejected => (lst, rejected)
  | fuel + 1, i, lst, rejected =>
    if h : i < lst.length then
      let fname := lst.get ⟨i, h⟩
      if strContains fname name then
        popLoopGo name row0 fuel (i + 1) (lst.eraseIdx i)
          (rejected ++ [fname ++ ":" ++ row0])
      else popLoopGo name row0 fuel (i + 1) lst rejected
    else (lst, rejected)

/-- Entry point of the inner loop at iterator index 0. -/
def popLoop (name row0 : String) (lst rejected : List String) :
    List String × List String :=
  popLoopGo name row0 lst.length 0 lst rejected

/-- The whole `--missingmetadata` filter (lines 469-482): iterate the prior
metadata rows; for each row derive the (space-stripped) family token and run
the pop loop over the current candidate list. Returns the remaining
candidate list (handed to `analyse_fonts` on line 485) and the `rejected`
log. -/
def missingmetadataFilter (rows : List (List String)) (files : List String) :
    List String × List String :=
  rows.foldl (fun acc row =>
    popLoop (normalizedFamilyToken row.headI) row.headI acc.1 acc.2) (files, [])

/-- C9: the filter pops the candidate list while iterating it, so the file
that shifts into the popped position is never examined: with the prior
identifier `Lobster:normal:400` and two consecutive candidates both
containing "Lobster", the second one survives the filter and is passed to
the batch analyzer even though it matches. -/
theorem C9_filter_leaves_matching_file :
    missingmetadataFilter [["Lobster:normal:400", "5", "0", "5", "body"]]
        ["Lobster-Bold.ttf", "Lobster-Regular.ttf"] =
      (["Lobster-Regular.ttf"], ["Lobster-Bold.ttf:Lobster:normal:400"]) ∧
    strContains "Lobster-Regular.ttf"
      (normalizedFamilyToken "Lobster:normal:400") = true := by
  decide
